import Mathlib

/-!
A shallow embedding of the gitfs adapter (fs.go and the gitFile handle) over
the go-git tree model it consumes, together with theorems about its
path validation, resolution, listing, scoping, lazy loading and error
mapping behavior.

Path representation: a Go path string is slash-separated; it is represented
here by its list of segments, the result of splitting the string on the
slash character.  The Go string "." corresponds to ["."], "a/b" to
["a", "b"], the empty string to [""], and "./../abc.txt" to
[".", "..", "abc.txt"].

Store representation: go-git resolves a TreeEntry's hash against a shared
object store.  The store is inlined: an entry carries its resolved target
directly, either a subtree, or a blob whose content is `some bytes` when the
store can produce the object and `none` when retrieval fails (missing or
corrupt object).  Bytes are Nats.
-/

namespace Gitfs

/-- The Go error values reachable in this code: the sentinel errors of io/fs
and go-git, the malformed-mode error of filemode.ToOSFileMode, and
fs.PathError (operation, path, wrapped error). -/
inductive GoError where
  | errInvalid
  | errNotExist
  | entryNotFound
  | dirNotFound
  | fileNotFound
  | objectNotFound
  | malformedMode
  | pathError (op : String) (path : List String) (err : GoError)
deriving DecidableEq

/-- go-git plumbing/filemode values. -/
inductive GitMode where
  | empty
  | dir
  | regular
  | deprecated
  | executable
  | symlink
  | submodule
deriving DecidableEq

/-- Go os.FileMode, restricted to the bits this code produces and inspects:
the directory bit, the symlink bit and the permission bits. -/
structure OSFileMode where
  isDir : Bool
  isSymlink : Bool
  perm : Nat
deriving DecidableEq

/-- filemode.FileMode.ToOSFileMode: Dir and Submodule map to ModePerm|ModeDir,
Regular and Deprecated to 0644, Executable to 0755, Symlink to
ModePerm|ModeSymlink, and Empty is the malformed-mode error. -/
def GitMode.toOSFileMode : GitMode → Except GoError OSFileMode
  | .dir => .ok ⟨true, false, 0o777⟩
  | .submodule => .ok ⟨true, false, 0o777⟩
  | .regular => .ok ⟨false, false, 0o644⟩
  | .deprecated => .ok ⟨false, false, 0o644⟩
  | .executable => .ok ⟨false, false, 0o755⟩
  | .symlink => .ok ⟨false, true, 0o777⟩
  | .empty => .error .malformedMode

mutual
/-- go-git object.Tree: a content hash plus the child entries, with the
store inlined into the entries. -/
inductive Tree where
  | mk (hash : Nat) (entries : List Entry)

/-- go-git object.TreeEntry {Name, Mode, Hash}, with the hash resolved
against the store inline. -/
inductive Entry where
  | mk (name : String) (mode : GitMode) (target : Target)

/-- What the store yields for an entry's hash: a subtree, or a blob whose
content is absent exactly when the store cannot produce the object. -/
inductive Target where
  | subtree (t : Tree)
  | blob (content : Option (List Nat))
end

def Tree.hash : Tree → Nat
  | .mk h _ => h

def Tree.entries : Tree → List Entry
  | .mk _ es => es

def Entry.name : Entry → String
  | .mk n _ _ => n

def Entry.mode : Entry → GitMode
  | .mk _ m _ => m

def Entry.target : Entry → Target
  | .mk _ _ tg => tg

/-- object.Tree.entry: look one child up by name (go-git builds a name map
over t.Entries; git trees have distinct names, so the first match is the
map's answer). -/
def Tree.entry (t : Tree) (baseName : String) : Except GoError Entry :=
  match t.entries.find? (fun e => e.name == baseName) with
  | some e => .ok e
  | none => .error .entryNotFound

/-- object.Tree.dir: look a child subtree up by name.  A missing entry is
ErrDirectoryNotFound; an entry whose hash is not a tree in the store
surfaces the store's plumbing.ErrObjectNotFound. -/
def Tree.dir (t : Tree) (baseName : String) : Except GoError Tree :=
  match t.entry baseName with
  | .error _ => .error .dirNotFound
  | .ok e =>
    match e.target with
    | .subtree sub => .ok sub
    | .blob _ => .error .objectNotFound

/-- object.Tree.FindEntry: walk every segment but the last through `dir`,
then look the last segment up in the reached tree.  (The path cache go-git
keeps on the tree is a pure optimization over the immutable store and is
omitted.)  The empty segment list cannot arise from a Go string, since
strings.Split never returns an empty slice; the walk is made total by
answering ErrEntryNotFound there. -/
def Tree.FindEntry : Tree → List String → Except GoError Entry
  | t, [p] => t.entry p
  | t, p :: rest =>
    match t.dir p with
    | .error err => .error err
    | .ok sub => Tree.FindEntry sub rest
  | _, [] => .error .entryNotFound

/-- object.Tree.Tree (named treeAt here since the Go method shares the type's
name): resolve a path to a subtree.  Any FindEntry failure becomes
ErrDirectoryNotFound, and so does a resolved entry whose hash is not a tree
(GetTree turns the store's ErrObjectNotFound into ErrDirectoryNotFound). -/
def Tree.treeAt (t : Tree) (path : List String) : Except GoError Tree :=
  match t.FindEntry path with
  | .error _ => .error .dirNotFound
  | .ok e =>
    match e.target with
    | .subtree sub => .ok sub
    | .blob _ => .error .dirNotFound

/-- go-git object.File as used here: name, git mode and the blob bytes;
File.Size is the byte length. -/
structure GitBlobFile where
  name : String
  mode : GitMode
  content : List Nat
deriving DecidableEq

/-- object.Tree.TreeEntryFile: GetBlob on the entry's hash.  The receiver
tree only supplies the shared store, which is inlined into the entry, so the
receiver is unused; retrieval fails with the store's ErrObjectNotFound when
the blob is unavailable or the hash is not a blob. -/
def Tree.TreeEntryFile (_t : Tree) (e : Entry) : Except GoError GitBlobFile :=
  match e.target with
  | .blob (some bs) => .ok ⟨e.name, e.mode, bs⟩
  | .blob none => .error .objectNotFound
  | .subtree _ => .error .objectNotFound

/-- The byte stream obtained from object.File.Reader: blob content plus a
read position.  Closing marks the stream closed and succeeds (the backends
in scope close without error). -/
structure BlobReader where
  content : List Nat
  pos : Nat
  closed : Bool
deriving DecidableEq

/-- The outcome of one Go Read call: bytes delivered, end of stream (io.EOF),
or a failure. -/
inductive ReadOut where
  | data (bs : List Nat)
  | eof
  | fail (err : GoError)
deriving DecidableEq

/-- One read against the stream: at or past the end it reports io.EOF,
otherwise it delivers up to n bytes from the position and advances. -/
def BlobReader.read (r : BlobReader) (n : Nat) : BlobReader × ReadOut :=
  if r.content.length ≤ r.pos then (r, .eof)
  else
    let bs := (r.content.drop r.pos).take n
    ({ r with pos := r.pos + bs.length }, .data bs)

/-- The gitFile handle: the tree it came from, its entry, the precomputed OS
file mode, the lazily loaded object.File, and the lazily opened reader. -/
structure GitFile where
  tree : Tree
  entry : Entry
  mode : OSFileMode
  file : Option GitBlobFile
  r : Option BlobReader

/-- newGitFile: converts the entry's git mode (failing on a malformed mode)
and wraps tree and entry with both lazy fields unset. -/
def newGitFile (tree : Tree) (entry : Entry) : Except GoError GitFile :=
  match entry.mode.toOSFileMode with
  | .error err => .error err
  | .ok mode => .ok ⟨tree, entry, mode, none, none⟩

/-- gitFile.load: a no-op once the file is loaded or when the handle is a
directory; otherwise fetches the object.File, leaving the cached field unset
on failure. -/
def GitFile.load (g : GitFile) : Except GoError GitFile :=
  if g.file.isSome || g.mode.isDir then .ok g
  else
    match g.tree.TreeEntryFile g.entry with
    | .error err => .error err
    | .ok f => .ok { g with file := some f }

/-- gitFile.Stat: load, then return the handle itself as its FileInfo.  The
load error is returned as is, with no wrapping. -/
def GitFile.Stat (g : GitFile) : Except GoError GitFile :=
  match g.load with
  | .error err => .error err
  | .ok g1 => .ok g1

/-- gitFile.Read: directories report io.EOF immediately; otherwise load,
open the reader on first use, and forward to it.  The final branch is
unreachable, since load leaves the file set for every non-directory (the Go
code would dereference nil there). -/
def GitFile.Read (g : GitFile) (n : Nat) : GitFile × ReadOut :=
  if g.mode.isDir then (g, .eof)
  else
    match g.load with
    | .error err => (g, .fail err)
    | .ok g1 =>
      match g1.r with
      | some r0 =>
        let p := r0.read n
        ({ g1 with r := some p.1 }, p.2)
      | none =>
        match g1.file with
        | some f =>
          let p := (BlobReader.mk f.content 0 false).read n
          ({ g1 with r := some p.1 }, p.2)
        | none => (g1, .fail .objectNotFound)

/-- gitFile.Close: forwards to the reader when one was opened (the handle
keeps the reader, so a later Close forwards again), succeeds without any
action otherwise. -/
def GitFile.Close (g : GitFile) : GitFile × Option GoError :=
  match g.r with
  | some r0 => ({ g with r := some { r0 with closed := true } }, none)
  | none => (g, none)

/-- gitFile.Name. -/
def GitFile.Name (g : GitFile) : String := g.entry.name

/-- gitFile.Size: the loaded file's byte length, 0 while nothing is
loaded. -/
def GitFile.Size (g : GitFile) : Nat :=
  match g.file with
  | some f => f.content.length
  | none => 0

/-- gitFile.Mode. -/
def GitFile.Mode (g : GitFile) : OSFileMode := g.mode

/-- gitFile.IsDir. -/
def GitFile.IsDir (g : GitFile) : Bool := g.mode.isDir

/-- The view: a gitFS wraps its root tree. -/
structure GitFS where
  tree : Tree

/-- io/fs fs.ValidPath over the segment representation: the single reserved
path ".", or a nonempty sequence of segments none of which is empty, "." or
"..".  (The UTF-8 validity check is vacuous here, Lean strings being valid
UTF-8 by construction.) -/
def validPath (name : List String) : Bool :=
  name == ["."] ||
    (!name.isEmpty && name.all (fun e => e != "" && e != "." && e != ".."))

/-- toFSError: maps go-git's three not-found sentinels to fs.ErrNotExist,
leaves every other cause unchanged, and wraps the result in an fs.PathError
carrying the operation and the path. -/
def toFSError (op : String) (name : List String) (err : GoError) : GoError :=
  let err1 := match err with
    | .dirNotFound => GoError.errNotExist
    | .entryNotFound => GoError.errNotExist
    | .fileNotFound => GoError.errNotExist
    | e => e
  .pathError op name err1

/-- gitFS.Open: reject invalid paths with ErrInvalid; "." becomes the
synthetic root entry {Name ".", Mode Dir, Hash g.tree.Hash} (whose hash
resolves to the root tree itself); anything else goes through FindEntry;
then the handle is built, with every failure wrapped by toFSError. -/
def GitFS.Open (g : GitFS) (name : List String) : Except GoError GitFile :=
  if !validPath name then .error (toFSError "open" name .errInvalid)
  else
    let entryRes : Except GoError Entry :=
      if name == ["."] then .ok (Entry.mk "." .dir (.subtree g.tree))
      else g.tree.FindEntry name
    match entryRes with
    | .error err => .error (toFSError "open" name err)
    | .ok e =>
      match newGitFile g.tree e with
      | .error err => .error (toFSError "open" name err)
      | .ok f => .ok f

/-- The entry-materialization loop of gitFS.ReadDir: the first newGitFile
failure aborts, so no partial list ever escapes. -/
def buildEntries (t : Tree) : List Entry → Except GoError (List GitFile)
  | [] => .ok []
  | e :: rest =>
    match newGitFile t e with
    | .error err => .error err
    | .ok f =>
      match buildEntries t rest with
      | .error err => .error err
      | .ok fs => .ok (f :: fs)

/-- gitFS.ReadDir: reject invalid paths with ErrInvalid; "." lists the root
tree; otherwise resolve the path as a subtree, falling back on a successful
FindEntry to the deliberate nil-entries answer for regular files, and
wrapping the subtree-resolution error with toFSError otherwise; finally
materialize the children in stored order. -/
def GitFS.ReadDir (g : GitFS) (name : List String) : Except GoError (List GitFile) :=
  if !validPath name then .error (toFSError "readdir" name .errInvalid)
  else
    let treeRes : Except GoError Tree :=
      if name == ["."] then .ok g.tree else g.tree.treeAt name
    match treeRes with
    | .error err =>
      match g.tree.FindEntry name with
      | .ok _ => .ok []
      | .error _ => .error (toFSError "readdir" name err)
    | .ok t =>
      match buildEntries t t.entries with
      | .error err => .error (toFSError "readdir" name err)
      | .ok files => .ok files

/-- gitFS.Sub: resolve dir as a subtree of the current root and wrap it as a
new view.  Note that no path validation is performed here. -/
def GitFS.Sub (g : GitFS) (dir : List String) : Except GoError GitFS :=
  match g.tree.treeAt dir with
  | .error err => .error (toFSError "sub" dir err)
  | .ok t => .ok ⟨t⟩

/-- The Go standard library io/fs Sub wrapper, through which callers reach
the scope operation: it validates the path, returns the filesystem unchanged
for ".", and only otherwise delegates to the SubFS method gitFS.Sub. -/
def fsSub (g : GitFS) (dir : List String) : Except GoError GitFS :=
  if !validPath dir then .error (GoError.pathError "sub" dir .errInvalid)
  else if dir == ["."] then .ok g
  else g.Sub dir

/-- The read loop of io/fs ReadFile: read into the spare capacity, grow the
buffer when it is full, stop at the first error, io.EOF meaning success.
The fuel bounds the iterations; callers pass more fuel than the loop can
consume, so the 0 case is never reached. -/
def GitFile.readLoop : Nat → GitFile → List Nat → Nat → Except GoError (List Nat)
  | 0, _, acc, _ => .ok acc
  | fuel + 1, g, acc, cap =>
    let cap1 := if cap ≤ acc.length then acc.length + 1 else cap
    let p := g.Read (cap1 - acc.length)
    match p.2 with
    | .data bs => GitFile.readLoop fuel p.1 (acc ++ bs) cap1
    | .eof => .ok acc
    | .fail err => .error err

/-- The part of io/fs ReadFile after a successful Open: Stat for the size
hint, a Stat error being swallowed with the size taken as 0, then the read
loop with capacity size+1 and more fuel than it can consume. -/
def readAfterOpen (f : GitFile) : Except GoError (List Nat) :=
  let st := f.Stat
  let f1 := match st with
    | .ok f2 => f2
    | .error _ => f
  let size := match st with
    | .ok f2 => f2.Size
    | .error _ => 0
  GitFile.readLoop (size + 2) f1 [] (size + 1)

/-- io/fs ReadFile over a gitFS: Open, then stat and drain the handle.  The
deferred Close does not affect the returned value. -/
def GitFS.readFileContent (g : GitFS) (name : List String) : Except GoError (List Nat) :=
  match g.Open name with
  | .error err => .error err
  | .ok f => readAfterOpen f

/-- True exactly for an fs.PathError tagged with the given operation and
path. -/
def GoError.isTagged : GoError → String → List String → Bool
  | .pathError op path _, op1, path1 => op == op1 && path == path1
  | _, _, _ => false

/-- True exactly for an fs.PathError. -/
def GoError.isPathError : GoError → Bool
  | .pathError .. => true
  | _ => false

/-! The snapshot used by the repository's test (README.md = "# README",
dir1/dir11/dir11.txt = "dir11", dir1/dir12/dir12.txt = "dir12",
dir1/dir12/dir121/empty.txt = ""), as concrete input material. -/

def dir11Tree : Tree :=
  .mk 12 [.mk "dir11.txt" .regular (.blob (some [100, 105, 114, 49, 49]))]

def dir121Tree : Tree :=
  .mk 14 [.mk "empty.txt" .regular (.blob (some []))]

def dir12Tree : Tree :=
  .mk 13 [.mk "dir12.txt" .regular (.blob (some [100, 105, 114, 49, 50])),
          .mk "dir121" .dir (.subtree dir121Tree)]

def dir1Tree : Tree :=
  .mk 11 [.mk "dir11" .dir (.subtree dir11Tree),
          .mk "dir12" .dir (.subtree dir12Tree)]

def sampleTree : Tree :=
  .mk 10 [.mk "README.md" .regular (.blob (some [35, 32, 82, 69, 65, 68, 77, 69])),
          .mk "dir1" .dir (.subtree dir1Tree)]

def sampleFS : GitFS := ⟨sampleTree⟩

/-- A store whose single file's blob cannot be retrieved. -/
def badTree : Tree := .mk 20 [.mk "bad.txt" .regular (.blob none)]

def badEntry : Entry := .mk "bad.txt" .regular (.blob none)

/-- The handle gitFS.Open yields on bad.txt: mode 0644, nothing loaded. -/
def badHandle : GitFile := ⟨badTree, badEntry, ⟨false, false, 0o644⟩, none, none⟩

/-- The handle gitFS.Open yields on the synthetic root entry ".". -/
def rootHandle : GitFile :=
  ⟨sampleTree, .mk "." .dir (.subtree sampleTree), ⟨true, false, 0o777⟩, none, none⟩

def readmeBytes : List Nat := [35, 32, 82, 69, 65, 68, 77, 69]

def readmeEntry : Entry := .mk "README.md" .regular (.blob (some readmeBytes))

/-- The handle gitFS.Open yields on README.md, before any load. -/
def readmeHandle : GitFile :=
  ⟨sampleTree, readmeEntry, ⟨false, false, 0o644⟩, none, none⟩

/-- The same handle after its lazy load has run. -/
def readmeLoaded : GitFile :=
  { readmeHandle with file := some ⟨"README.md", .regular, readmeBytes⟩ }

/-! ## General lemmas about the embedded operations -/

theorem find?_name_eq_none {l : List Entry} {s : String}
    (h : ∀ e ∈ l, e.name ≠ s) : l.find? (fun e => e.name == s) = none := by
  rw [List.find?_eq_none]
  intro x hx
  simpa using h x hx

theorem toFSError_isTagged (op : String) (name : List String) (c : GoError) :
    (toFSError op name c).isTagged op name = true := by
  cases c <;> simp [toFSError, GoError.isTagged]

/-- Every error exit of gitFS.Open is wrapped by toFSError with the
operation "open" and the requested path. -/
theorem Open_error_tagged {g : GitFS} {name : List String} {err : GoError}
    (h : g.Open name = .error err) : err.isTagged "open" name = true := by
  unfold GitFS.Open at h
  split at h
  · injection h with h1
    subst h1
    exact toFSError_isTagged ..
  · dsimp only at h
    split at h
    · injection h with h1
      subst h1
      exact toFSError_isTagged ..
    · split at h
      · injection h with h1
        subst h1
        exact toFSError_isTagged ..
      · exact absurd h (by simp)

/-- Every error exit of gitFS.ReadDir is wrapped by toFSError with the
operation "readdir" and the requested path. -/
theorem ReadDir_error_tagged {g : GitFS} {name : List String} {err : GoError}
    (h : g.ReadDir name = .error err) : err.isTagged "readdir" name = true := by
  unfold GitFS.ReadDir at h
  split at h
  · injection h with h1
    subst h1
    exact toFSError_isTagged ..
  · dsimp only at h
    split at h
    · split at h
      · exact absurd h (by simp)
      · injection h with h1
        subst h1
        exact toFSError_isTagged ..
    · split at h
      · injection h with h1
        subst h1
        exact toFSError_isTagged ..
      · exact absurd h (by simp)

/-- Every error exit of gitFS.Sub is wrapped by toFSError with the
operation "sub" and the requested path. -/
theorem Sub_error_tagged {g : GitFS} {dir : List String} {err : GoError}
    (h : g.Sub dir = .error err) : err.isTagged "sub" dir = true := by
  unfold GitFS.Sub at h
  split at h
  · injection h with h1
    subst h1
    exact toFSError_isTagged ..
  · exact absurd h (by simp)

/-- Loading is idempotent: whatever a successful load produced, loading it
again succeeds without changing it (the cached field short-circuits load). -/
theorem load_idem {g g1 : GitFile} (h : g.load = .ok g1) : g1.load = .ok g1 := by
  unfold GitFile.load at h
  split at h
  · injection h with h1
    subst h1
    unfold GitFile.load
    simp [*]
  · split at h
    · exact absurd h (by simp)
    · injection h with h1
      subst h1
      unfold GitFile.load
      simp

/-- A successful Stat is exactly a successful load. -/
theorem Stat_eq_ok {g g1 : GitFile} (h : g.Stat = .ok g1) : g.load = .ok g1 := by
  unfold GitFile.Stat at h
  split at h
  · exact absurd h (by simp)
  · injection h with h1
    subst h1
    assumption

/-- TreeEntryFile only uses the entry (the receiver merely carries the shared
store, which is inlined), so the receiver tree is irrelevant. -/
theorem TreeEntryFile_retree (t t0 : Tree) (e : Entry) :
    Tree.TreeEntryFile t e = Tree.TreeEntryFile t0 e := rfl

/-- Everything a handle operation can observe besides the tree it came
from: the entry, the mode and the two lazy fields. -/
def GitFile.core (g : GitFile) :
    Entry × OSFileMode × Option GitBlobFile × Option BlobReader :=
  (g.entry, g.mode, g.file, g.r)

theorem core_fields {g1 g2 : GitFile} (h : g1.core = g2.core) :
    g1.entry = g2.entry ∧ g1.mode = g2.mode ∧ g1.file = g2.file ∧ g1.r = g2.r := by
  simpa [GitFile.core, Prod.ext_iff] using h

/-- Loading is determined by the core: the trees the two handles carry are
only stand-ins for the shared store. -/
theorem load_core {g1 g2 : GitFile} (h : g1.core = g2.core) :
    g1.load.map GitFile.core = g2.load.map GitFile.core := by
  obtain ⟨he, hm, hf, hr⟩ := core_fields h
  unfold GitFile.load
  rw [hf, hm, he, TreeEntryFile_retree g1.tree g2.tree]
  by_cases hc : (g2.file.isSome || g2.mode.isDir) = true
  · simp [hc, Except.map, h]
  · simp only [hc, if_neg, if_false]
    cases hb : Tree.TreeEntryFile g2.tree g2.entry with
    | error err => simp [Except.map]
    | ok f => simp [Except.map, GitFile.core, he, hm, hr]

theorem stat_core {g1 g2 : GitFile} (h : g1.core = g2.core) :
    g1.Stat.map GitFile.core = g2.Stat.map GitFile.core := by
  have hl := load_core h
  unfold GitFile.Stat
  cases h1 : g1.load with
  | error e1 =>
    cases h2 : g2.load with
    | error e2 => rw [h1, h2] at hl; simpa [Except.map] using hl
    | ok b => rw [h1, h2] at hl; simp [Except.map] at hl
  | ok a =>
    cases h2 : g2.load with
    | error e2 => rw [h1, h2] at hl; simp [Except.map] at hl
    | ok b => rw [h1, h2] at hl; simpa [Except.map] using hl

theorem Size_core {g1 g2 : GitFile} (h : g1.core = g2.core) :
    g1.Size = g2.Size := by
  obtain ⟨-, -, hf, -⟩ := core_fields h
  unfold GitFile.Size
  rw [hf]

/-- One read behaves identically on core-equal handles and keeps the cores
equal. -/
theorem read_core {g1 g2 : GitFile} (n : Nat) (h : g1.core = g2.core) :
    (g1.Read n).2 = (g2.Read n).2 ∧ (g1.Read n).1.core = (g2.Read n).1.core := by
  obtain ⟨he, hm, hf, hr⟩ := core_fields h
  unfold GitFile.Read
  rw [hm]
  by_cases hd : g2.mode.isDir = true
  · simp [hd, h]
  · simp only [hd, Bool.false_eq_true, if_false]
    have hl := load_core h
    cases h1 : g1.load with
    | error e1 =>
      cases h2 : g2.load with
      | error e2 =>
        rw [h1, h2] at hl
        simp only [Except.map, Except.error.injEq] at hl
        subst hl
        simp [h]
      | ok b => rw [h1, h2] at hl; simp [Except.map] at hl
    | ok a =>
      cases h2 : g2.load with
      | error e2 => rw [h1, h2] at hl; simp [Except.map] at hl
      | ok b =>
        rw [h1, h2] at hl
        simp only [Except.map, Except.ok.injEq] at hl
        obtain ⟨hea, hma, hfa, hra⟩ := core_fields hl
        dsimp only
        rw [hra, hfa]
        cases hb : b.r with
        | some r0 => simp [GitFile.core, hea, hma, hfa]
        | none =>
          cases hfb : b.file with
          | some f => simp [GitFile.core, hea, hma, hfa]
          | none => simp [hl]

theorem readLoop_core (fuel : Nat) :
    ∀ {g1 g2 : GitFile} (acc : List Nat) (cap : Nat), g1.core = g2.core →
      GitFile.readLoop fuel g1 acc cap = GitFile.readLoop fuel g2 acc cap := by
  induction fuel with
  | zero => intro g1 g2 acc cap _; rfl
  | succ fuel ih =>
    intro g1 g2 acc cap h
    unfold GitFile.readLoop
    dsimp only
    obtain ⟨ho, hc⟩ :=
      read_core ((if cap ≤ acc.length then acc.length + 1 else cap) - acc.length) h
    rw [ho]
    cases hout :
        (g2.Read ((if cap ≤ acc.length then acc.length + 1 else cap) - acc.length)).2 with
    | data bs => exact ih _ _ hc
    | eof => rfl
    | fail err => rfl

/-- The whole stat-then-drain pipeline of ReadFile is determined by the
core. -/
theorem readAfterOpen_core {g1 g2 : GitFile} (h : g1.core = g2.core) :
    readAfterOpen g1 = readAfterOpen g2 := by
  have hs := stat_core h
  unfold readAfterOpen
  cases h1 : g1.Stat with
  | error e1 =>
    cases h2 : g2.Stat with
    | error e2 => exact readLoop_core _ _ _ h
    | ok b => rw [h1, h2] at hs; simp [Except.map] at hs
  | ok a =>
    cases h2 : g2.Stat with
    | error e2 => rw [h1, h2] at hs; simp [Except.map] at hs
    | ok b =>
      rw [h1, h2] at hs
      simp only [Except.map, Except.ok.injEq] at hs
      dsimp only
      rw [Size_core hs]
      exact readLoop_core _ _ _ hs

/-- Unpacking validPath for a path other than ".": nonempty, and every
segment is a proper name. -/
theorem validPath_parts {d : List String} (hv : validPath d = true)
    (hne : d ≠ ["."]) :
    d ≠ [] ∧ ∀ s ∈ d, s ≠ "" ∧ s ≠ "." ∧ s ≠ ".." := by
  unfold validPath at hv
  simp only [Bool.or_eq_true, beq_iff_eq, Bool.and_eq_true, Bool.not_eq_true',
    List.all_eq_true, bne_iff_ne, ne_eq] at hv
  rcases hv with h | ⟨h1, h2⟩
  · exact absurd h hne
  · refine ⟨?_, ?_⟩
    · intro h0
      subst h0
      simp at h1
    · intro s hs
      exact ⟨(h2 s hs).1.1, (h2 s hs).1.2, (h2 s hs).2⟩

/-- Packing validPath from the segments. -/
theorem validPath_of_parts {d : List String} (h0 : d ≠ [])
    (h : ∀ s ∈ d, s ≠ "" ∧ s ≠ "." ∧ s ≠ "..") : validPath d = true := by
  unfold validPath
  simp only [Bool.or_eq_true, beq_iff_eq, Bool.and_eq_true, Bool.not_eq_true',
    List.all_eq_true, bne_iff_ne, ne_eq]
  right
  exact ⟨by simpa [List.isEmpty_iff] using h0,
    fun x hx => ⟨⟨(h x hx).1, (h x hx).2.1⟩, (h x hx).2.2⟩⟩

/-- Joining two proper relative paths gives a proper relative path that is
not the reserved ".". -/
theorem validPath_append {d p : List String}
    (hd : validPath d = true) (hd1 : d ≠ ["."])
    (hp : validPath p = true) (hp1 : p ≠ ["."]) :
    validPath (d ++ p) = true ∧ d ++ p ≠ ["."] ∧ d ≠ [] ∧ p ≠ [] := by
  obtain ⟨hd0, hds⟩ := validPath_parts hd hd1
  obtain ⟨hp0, hps⟩ := validPath_parts hp hp1
  refine ⟨?_, ?_, hd0, hp0⟩
  · refine validPath_of_parts (by simp [hd0]) ?_
    intro s hs
    rcases List.mem_append.mp hs with h | h
    · exact hds s h
    · exact hps s h
  · intro h
    have hlen := congrArg List.length h
    simp only [List.length_append, List.length_cons, List.length_nil] at hlen
    have h1 : 1 ≤ d.length := List.length_pos.mpr hd0
    have h2 : 1 ≤ p.length := List.length_pos.mpr hp0
    omega

/-- Path resolution composes: once d resolves to the subtree t1, resolving
d ++ p from the root is resolving p from t1. -/
theorem FindEntry_append (d : List String) :
    ∀ (t t1 : Tree) (p : List String), p ≠ [] → t.treeAt d = .ok t1 →
      t.FindEntry (d ++ p) = t1.FindEntry p := by
  induction d with
  | nil =>
    intro t t1 p hp h
    exact absurd h (by simp [Tree.treeAt, Tree.FindEntry])
  | cons a d1 ih =>
    intro t t1 p hp h
    cases d1 with
    | nil =>
      obtain ⟨x, px, hx⟩ : ∃ x px, p = x :: px := by
        cases p with
        | nil => exact absurd rfl hp
        | cons x px => exact ⟨x, px, rfl⟩
      subst hx
      cases he : t.entry a with
      | error err => simp [Tree.treeAt, Tree.FindEntry, he] at h
      | ok e =>
        cases htg : e.target with
        | blob c => simp [Tree.treeAt, Tree.FindEntry, he, htg] at h
        | subtree t2 =>
          have ht2 : t2 = t1 := by
            simpa [Tree.treeAt, Tree.FindEntry, he, htg] using h
          subst ht2
          simp [Tree.FindEntry, Tree.dir, he, htg]
    | cons b d2 =>
      cases hda : t.dir a with
      | error err => simp [Tree.treeAt, Tree.FindEntry, hda] at h
      | ok t2 =>
        have h2 : t2.treeAt (b :: d2) = .ok t1 := by
          simpa [Tree.treeAt, Tree.FindEntry, hda] using h
        have h3 := ih t2 t1 p hp h2
        simpa [Tree.FindEntry, hda] using h3

/-- Draining a directory handle that has nothing loaded yields no bytes:
the stat hint is 0, and the first read reports io.EOF at once. -/
theorem readAfterOpen_dir {f : GitFile} (hd : f.mode.isDir = true)
    (hf : f.file = none) : readAfterOpen f = .ok [] := by
  have hstat : f.Stat = .ok f := by
    simp [GitFile.Stat, GitFile.load, hd]
  unfold readAfterOpen
  rw [hstat]
  dsimp only
  have hsize : f.Size = 0 := by simp [GitFile.Size, hf]
  rw [hsize]
  unfold GitFile.readLoop
  simp [GitFile.Read, hd]

/-- Entry materialization succeeds on well-formed modes and reproduces the
entry list exactly, in order. -/
theorem buildEntries_ok (t : Tree) (es : List Entry)
    (h : ∀ e ∈ es, e.mode ≠ GitMode.empty) :
    ∃ files, buildEntries t es = .ok files ∧ files.map GitFile.entry = es := by
  induction es with
  | nil => exact ⟨[], rfl, rfl⟩
  | cons e rest ih =>
    have he : e.mode ≠ GitMode.empty := h e (by simp)
    obtain ⟨m, hm⟩ : ∃ m, e.mode.toOSFileMode = .ok m := by
      cases hmode : e.mode <;> simp [GitMode.toOSFileMode]
      exact absurd hmode he
    obtain ⟨files, hf, hmap⟩ := ih (fun x hx => h x (by simp [hx]))
    refine ⟨⟨t, e, m, none, none⟩ :: files, ?_, ?_⟩
    · simp [buildEntries, newGitFile, hm, hf]
    · simp [hmap, GitFile.entry]

/-! ## Claim theorems -/

/-- C1 (amended).  open and readDirectory reject every syntactically invalid
path with an fs.PathError wrapping ErrInvalid; the scope operation gitFS.Sub
performs no syntactic validation, so an invalid path such as ".." falls
through tree resolution and fails with NotFound (ErrNotExist) instead of
InvalidPath. -/
theorem boundary_invalid_path (g : GitFS) (name : List String)
    (hv : validPath name = false)
    (hdd : ∀ e ∈ g.tree.entries, e.name ≠ "..") :
    g.Open name = .error (.pathError "open" name .errInvalid) ∧
    g.ReadDir name = .error (.pathError "readdir" name .errInvalid) ∧
    g.Sub [".."] = .error (.pathError "sub" [".."] .errNotExist) := by
  refine ⟨?_, ?_, ?_⟩
  · simp [GitFS.Open, hv, toFSError]
  · simp [GitFS.ReadDir, hv, toFSError]
  · simp [GitFS.Sub, Tree.treeAt, Tree.FindEntry, Tree.entry,
      find?_name_eq_none hdd, toFSError]

/-- C1, witness at the test's invalid path "./../abc.txt". -/
theorem boundary_invalid_path_inst :
    sampleFS.Open [".", "..", "abc.txt"] =
      .error (.pathError "open" [".", "..", "abc.txt"] .errInvalid) ∧
    sampleFS.ReadDir [".", "..", "abc.txt"] =
      .error (.pathError "readdir" [".", "..", "abc.txt"] .errInvalid) ∧
    sampleFS.Sub [".."] = .error (.pathError "sub" [".."] .errNotExist) :=
  boundary_invalid_path sampleFS [".", "..", "abc.txt"] (by decide) (by decide)

/-- C1, counterexample to the claim as stated: on the traversal path ".."
the scope operation fails with ErrNotExist, not with InvalidPath. -/
theorem boundary_invalid_path_cex :
    sampleFS.Sub [".."] = .error (.pathError "sub" [".."] .errNotExist) ∧
    GoError.errNotExist ≠ GoError.errInvalid := ⟨rfl, by decide⟩

/-- C2 (amended).  The repository's scope method gitFS.Sub called with "."
fails with NotFound (tree.Tree(".") finds no entry named "."); the
view-equivalence at "." that callers observe is supplied by the standard
library fs.Sub wrapper, which returns the original view unchanged without
invoking gitFS.Sub. -/
theorem scope_dot_behavior (g : GitFS)
    (hd : ∀ e ∈ g.tree.entries, e.name ≠ ".") :
    g.Sub ["."] = .error (.pathError "sub" ["."] .errNotExist) ∧
    fsSub g ["."] = .ok g := by
  constructor
  · simp [GitFS.Sub, Tree.treeAt, Tree.FindEntry, Tree.entry,
      find?_name_eq_none hd, toFSError]
  · rfl

/-- C2, witness on the test snapshot. -/
theorem scope_dot_behavior_inst :
    sampleFS.Sub ["."] = .error (.pathError "sub" ["."] .errNotExist) ∧
    fsSub sampleFS ["."] = .ok sampleFS :=
  scope_dot_behavior sampleFS (by decide)

/-- C2, counterexample to the claim as stated: gitFS.Sub with "." on the
test snapshot returns an error, not a view equivalent to the original. -/
theorem scope_dot_behavior_cex :
    sampleFS.Sub ["."] = .error (.pathError "sub" ["."] .errNotExist) ∧
    (sampleFS.Sub ["."]).isOk = false := ⟨rfl, rfl⟩

/-- C3.  For every syntactically valid path resolving to a directory (the
resolution expression below is the one gitFS.ReadDir evaluates) whose
children all carry well-formed modes, ReadDir succeeds and returns exactly
the immediate children, in the stored canonical order; in particular, when
the stored entries are sorted by name, so is the returned listing. -/
theorem readdir_exact_children_sorted (g : GitFS) (name : List String)
    (t1 : Tree)
    (hv : validPath name = true)
    (hres : (if name == ["."] then Except.ok g.tree else g.tree.treeAt name) =
      .ok t1)
    (hwf : ∀ e ∈ t1.entries, e.mode ≠ GitMode.empty)
    (hsorted : t1.entries.Pairwise (fun a b => a.name < b.name)) :
    ∃ files, g.ReadDir name = .ok files ∧
      files.map GitFile.entry = t1.entries ∧
      files.Pairwise (fun a b => a.Name < b.Name) := by
  obtain ⟨files, hb, hmap⟩ := buildEntries_ok t1 t1.entries hwf
  refine ⟨files, ?_, hmap, ?_⟩
  · unfold GitFS.ReadDir
    rw [hv]
    dsimp only
    rw [hres]
    dsimp only
    rw [hb]
    simp
  · have := hmap ▸ hsorted
    rw [List.pairwise_map] at this
    exact this.imp (fun h => h)

/-- C3, witness: listing dir1/dir12 of the test snapshot. -/
theorem readdir_exact_children_sorted_inst :
    ∃ files, sampleFS.ReadDir ["dir1", "dir12"] = .ok files ∧
      files.map GitFile.entry = dir12Tree.entries ∧
      files.Pairwise (fun a b => a.Name < b.Name) :=
  readdir_exact_children_sorted sampleFS ["dir1", "dir12"] dir12Tree
    (by decide) rfl (by decide)
    (by
      simp only [dir12Tree, Tree.entries, List.pairwise_cons, List.mem_cons,
        List.mem_singleton, List.not_mem_nil, List.Pairwise.nil,
        String.lt_iff_toList_lt, Entry.name]
      refine ⟨?_, ?_, trivial⟩
      · intro a ha
        rcases ha with h | h
        · subst h; decide
        · simp at h
      · intro a ha
        simp at ha)

/-- C4.  On a syntactically valid path other than ".", gitFS.ReadDir answers
a resolved regular (blob) entry with the empty listing and no error, and a
path that resolves to nothing with an fs.PathError wrapping ErrNotExist. -/
theorem readdir_file_and_missing (g : GitFS) (name : List String) (e : Entry)
    (c : Option (List Nat)) (err : GoError)
    (hv : validPath name = true) (hne : name ≠ ["."]) :
    (g.tree.FindEntry name = .ok e → e.target = .blob c →
      g.ReadDir name = .ok []) ∧
    (g.tree.FindEntry name = .error err →
      g.ReadDir name = .error (.pathError "readdir" name .errNotExist)) := by
  have hb : (name == ["."]) = false := by
    simpa using hne
  constructor
  · intro hf ht
    simp [GitFS.ReadDir, hv, hb, Tree.treeAt, hf, ht, toFSError]
  · intro hf
    simp [GitFS.ReadDir, hv, hb, Tree.treeAt, hf, toFSError]

/-- C4, witness: the README.md branch, as in the repository's test of
ReadDir on a regular file. -/
theorem readdir_file_and_missing_inst :
    sampleFS.ReadDir ["README.md"] = .ok [] :=
  (readdir_file_and_missing sampleFS ["README.md"] readmeEntry
    (some readmeBytes) .errInvalid (by decide) (by decide)).1 rfl rfl

/-- C5 (amended).  The view-level operations open, readDirectory and scope
tag every failure as an fs.PathError carrying the operation name and the
requested path; the handle-level Stat, by contrast, returns the raw
underlying cause of a load failure (here the store's objectNotFound) with no
operation or path annotation and no wrapper. -/
theorem errors_tagged_and_stat_untagged (g : GitFS) (name : List String)
    (err1 err2 err3 : GoError) (f : GitFile)
    (h1 : g.Open name = .error err1)
    (h2 : g.ReadDir name = .error err2)
    (h3 : g.Sub name = .error err3)
    (hd : f.mode.isDir = false) (hf : f.file = none)
    (ht : f.entry.target = .blob none) :
    err1.isTagged "open" name = true ∧
    err2.isTagged "readdir" name = true ∧
    err3.isTagged "sub" name = true ∧
    f.Stat = .error .objectNotFound ∧
    GoError.isPathError .objectNotFound = false := by
  refine ⟨Open_error_tagged h1, ReadDir_error_tagged h2, Sub_error_tagged h3,
    ?_, rfl⟩
  simp [GitFile.Stat, GitFile.load, hf, hd, Tree.TreeEntryFile, ht]

/-- C5, witness: a missing path, and the handle on the irretrievable
blob. -/
theorem errors_tagged_and_stat_untagged_inst :
    GoError.isTagged (.pathError "open" ["nope"] .errNotExist) "open" ["nope"] =
      true ∧
    GoError.isTagged (.pathError "readdir" ["nope"] .errNotExist) "readdir"
      ["nope"] = true ∧
    GoError.isTagged (.pathError "sub" ["nope"] .errNotExist) "sub" ["nope"] =
      true ∧
    badHandle.Stat = .error .objectNotFound ∧
    GoError.isPathError .objectNotFound = false :=
  errors_tagged_and_stat_untagged sampleFS ["nope"]
    (.pathError "open" ["nope"] .errNotExist)
    (.pathError "readdir" ["nope"] .errNotExist)
    (.pathError "sub" ["nope"] .errNotExist)
    badHandle rfl rfl rfl rfl rfl rfl

/-- C5, counterexample to the claim as stated: the handle Open yields on
bad.txt answers Stat with the bare store cause, carrying no operation name
and no path (it is no fs.PathError at all), rather than a tagged wrapper. -/
theorem errors_tagged_and_stat_untagged_cex :
    GitFS.Open ⟨badTree⟩ ["bad.txt"] = .ok badHandle ∧
    badHandle.Stat = .error .objectNotFound ∧
    GoError.isPathError .objectNotFound = false := ⟨rfl, rfl, rfl⟩

/-- Reading the reserved root path "." of any view yields no bytes and no
error. -/
theorem readFileContent_dot (gg : GitFS) : gg.readFileContent ["."] = .ok [] := by
  have h : gg.readFileContent ["."] =
      readAfterOpen ⟨gg.tree, Entry.mk "." .dir (.subtree gg.tree),
        ⟨true, false, 0o777⟩, none, none⟩ := by
    unfold GitFS.readFileContent GitFS.Open
    simp [validPath, newGitFile, Entry.mode, GitMode.toOSFileMode]
  rw [h]
  exact readAfterOpen_dir rfl rfl

/-- C6.  Scoping into the directory d and resolving-and-reading p there
yields the same content as resolving-and-reading the joined path d ++ p from
the original root; for the reserved path "." relative to the scope, both the
scoped root and the directory d itself read as empty content. -/
theorem scoped_resolution_agrees (g g1 : GitFS) (d p : List String)
    (bs : List Nat) (e0 : Entry)
    (hd : validPath d = true) (hd1 : d ≠ ["."])
    (hp : validPath p = true) (hp1 : p ≠ ["."])
    (hsub : g.Sub d = .ok g1)
    (he0 : g.tree.FindEntry d = .ok e0) (hm0 : e0.mode = GitMode.dir) :
    (g1.readFileContent p = .ok bs ↔ g.readFileContent (d ++ p) = .ok bs) ∧
    g1.readFileContent ["."] = .ok [] ∧
    g.readFileContent d = .ok [] := by
  obtain ⟨hvap, hnedot, hdne, hpne⟩ := validPath_append hd hd1 hp hp1
  have hpb : (p == ["."]) = false := by simpa using hp1
  have hdb : (d == ["."]) = false := by simpa using hd1
  have hdpb : (d ++ p == ["."]) = false := by simpa using hnedot
  -- Extract the subtree from the successful Sub.
  unfold GitFS.Sub at hsub
  split at hsub
  · exact absurd hsub (by simp)
  · rename_i t2 heq
    injection hsub with hsub1
    subst hsub1
    -- The resolved entry of d is e0 and its target is the subtree t2.
    rw [Tree.treeAt, he0] at heq
    dsimp only at heq
    cases htg : e0.target with
    | blob c => rw [htg] at heq; exact absurd heq (by simp)
    | subtree t3 =>
      rw [htg] at heq
      have ht3 : t3 = t2 := by simpa using heq
      subst ht3
      have hcomp := FindEntry_append d g.tree t3 p hpne
        (by rw [Tree.treeAt, he0]; dsimp only; rw [htg])
      refine ⟨?_, readFileContent_dot ⟨t3⟩, ?_⟩
      · cases hE : Tree.FindEntry t3 p with
        | error err =>
          have hL : GitFS.readFileContent ⟨t3⟩ p =
              .error (toFSError "open" p err) := by
            unfold GitFS.readFileContent GitFS.Open
            simp [hp, hpb, hE]
          have hR : g.readFileContent (d ++ p) =
              .error (toFSError "open" (d ++ p) err) := by
            unfold GitFS.readFileContent GitFS.Open
            simp [hvap, hdpb, hcomp, hE]
          rw [hL, hR]
          simp
        | ok e1 =>
          cases hmode : e1.mode.toOSFileMode with
          | error merr =>
            have hL : GitFS.readFileContent ⟨t3⟩ p =
                .error (toFSError "open" p merr) := by
              unfold GitFS.readFileContent GitFS.Open
              simp [hp, hpb, hE, newGitFile, hmode]
            have hR : g.readFileContent (d ++ p) =
                .error (toFSError "open" (d ++ p) merr) := by
              unfold GitFS.readFileContent GitFS.Open
              simp [hvap, hdpb, hcomp, hE, newGitFile, hmode]
            rw [hL, hR]
            simp
          | ok m =>
            have hL : GitFS.readFileContent ⟨t3⟩ p =
                readAfterOpen ⟨t3, e1, m, none, none⟩ := by
              unfold GitFS.readFileContent GitFS.Open
              simp [hp, hpb, hE, newGitFile, hmode]
            have hR : g.readFileContent (d ++ p) =
                readAfterOpen ⟨g.tree, e1, m, none, none⟩ := by
              unfold GitFS.readFileContent GitFS.Open
              simp [hvap, hdpb, hcomp, hE, newGitFile, hmode]
            rw [hL, hR, readAfterOpen_core
              (show GitFile.core ⟨t3, e1, m, none, none⟩ =
                GitFile.core ⟨g.tree, e1, m, none, none⟩ from rfl)]
      · have h0 : g.readFileContent d =
            readAfterOpen ⟨g.tree, e0, ⟨true, false, 0o777⟩, none, none⟩ := by
          unfold GitFS.readFileContent GitFS.Open
          simp [hd, hdb, he0, newGitFile, hm0, GitMode.toOSFileMode]
        rw [h0]
        exact readAfterOpen_dir rfl rfl

/-- C6, witness: the test's scenario, scope into dir1, then read
dir11/dir11.txt. -/
theorem scoped_resolution_agrees_inst :
    ((GitFS.mk dir1Tree).readFileContent ["dir11", "dir11.txt"] =
        .ok [100, 105, 114, 49, 49] ↔
      sampleFS.readFileContent ["dir1", "dir11", "dir11.txt"] =
        .ok [100, 105, 114, 49, 49]) ∧
    (GitFS.mk dir1Tree).readFileContent ["."] = .ok [] ∧
    sampleFS.readFileContent ["dir1"] = .ok [] :=
  scoped_resolution_agrees sampleFS ⟨dir1Tree⟩ ["dir1"] ["dir11", "dir11.txt"]
    [100, 105, 114, 49, 49] (Entry.mk "dir1" .dir (.subtree dir1Tree))
    (by decide) (by decide) (by decide) (by decide) rfl rfl rfl

/-- C7.  A directory handle (nothing loaded, as every directory handle is
created and stays) stats to itself reporting size 0, reads to immediate
io.EOF with no state change, whatever the buffer size and whatever the
backing target is — no storage access happens. -/
theorem dir_handles_inert (g : GitFile) (n : Nat)
    (hd : g.mode.isDir = true) (hf : g.file = none) :
    g.Stat = .ok g ∧ g.Read n = (g, .eof) ∧ g.Size = 0 := by
  refine ⟨?_, ?_, ?_⟩
  · simp [GitFile.Stat, GitFile.load, hd]
  · simp [GitFile.Read, hd]
  · simp [GitFile.Size, hf]

/-- C7, witness: the synthetic root handle Open yields on ".". -/
theorem dir_handles_inert_inst :
    sampleFS.Open ["."] = .ok rootHandle ∧
    (rootHandle.Stat = .ok rootHandle ∧
      rootHandle.Read 4 = (rootHandle, .eof) ∧ rootHandle.Size = 0) :=
  ⟨rfl, dir_handles_inert rootHandle 4 rfl rfl⟩

/-- C8.  The lazy load a Stat triggers happens at most once: whatever a
successful Stat produced, loading it again is the identity and a later Stat
on it returns the cached handle unchanged, with no second retrieval. -/
theorem stat_loads_at_most_once (g g1 : GitFile) (h : g.Stat = .ok g1) :
    g1.load = .ok g1 ∧ g1.Stat = .ok g1 := by
  have hl := load_idem (Stat_eq_ok h)
  exact ⟨hl, by simp [GitFile.Stat, hl]⟩

/-- C8, witness: the fresh README.md handle and its loaded form. -/
theorem stat_loads_at_most_once_inst :
    readmeLoaded.load = .ok readmeLoaded ∧
    readmeLoaded.Stat = .ok readmeLoaded :=
  stat_loads_at_most_once readmeHandle readmeLoaded rfl

/-- C9.  Close marks the open stream closed when one exists and otherwise
does nothing, always reports success, and a second Close also reports
success and leaves the handle as it was. -/
theorem close_idempotent (g : GitFile) :
    g.Close =
      ({ g with r := g.r.map (fun r0 => { r0 with closed := true }) }, none) ∧
    g.Close.1.Close = (g.Close.1, none) := by
  obtain ⟨t, e, m, f, r⟩ := g
  cases r with
  | none => exact ⟨rfl, rfl⟩
  | some r0 =>
    cases r0
    exact ⟨rfl, rfl⟩

/-- C10.  A handle fresh from newGitFile reports Size 0, nothing being
loaded yet; once a Stat has run the load on a file-typed handle backed by an
available blob, Size reports the blob's byte length. -/
theorem size_zero_until_load (t : Tree) (e : Entry) (g : GitFile)
    (bs : List Nat)
    (hg : newGitFile t e = .ok g)
    (hd : g.mode.isDir = false)
    (ht : e.target = .blob (some bs)) :
    g.Size = 0 ∧ g.file = none ∧
    g.Stat = .ok { g with file := some ⟨e.name, e.mode, bs⟩ } ∧
    GitFile.Size { g with file := some ⟨e.name, e.mode, bs⟩ } = bs.length := by
  unfold newGitFile at hg
  split at hg
  · exact absurd hg (by simp)
  · injection hg with h1
    subst h1
    refine ⟨rfl, rfl, ?_, by simp [GitFile.Size]⟩
    simp only [GitFile.Stat, GitFile.load, Tree.TreeEntryFile] at *
    simp [hd, ht]

/-- C10, witness: the README.md handle before and after its load. -/
theorem size_zero_until_load_inst :
    readmeHandle.Size = 0 ∧ readmeHandle.file = none ∧
    readmeHandle.Stat =
      .ok { readmeHandle with
              file := some ⟨readmeEntry.name, readmeEntry.mode, readmeBytes⟩ } ∧
    GitFile.Size { readmeHandle with
        file := some ⟨readmeEntry.name, readmeEntry.mode, readmeBytes⟩ } =
      readmeBytes.length :=
  size_zero_until_load sampleTree readmeEntry readmeHandle readmeBytes
    rfl rfl rfl

end Gitfs
